import Mathlib

/-!
Shallow embedding of `helperFunctions.py` from the dumpLeakageCalorimeter
repository, together with theorems settling the frozen claims about it.

Numeric values carried by the analysis are embedded as exact rationals
(`ℚ`); square roots land in `ℝ` via `Real.sqrt`.  File access is
abstracted away: the per-run file contents become explicit arguments, and
the Python `ValueError` raised on an unrecognised `type` string becomes
the `Except.error` branch of an `Except String` result.
-/

/-- DAC conversion factor in [mV/bit]: `dacConv = 2000 / 2**14`. -/
def dacConv : ℚ := 2000 / 2 ^ 14

/-- Sampling time in [ns]: `samplingTime = 2`. -/
def samplingTime : ℚ := 2

/-- Absolute threshold for the time-over-threshold analysis in [mV]. -/
def tot_absTh : ℚ := 120

/-- Relative threshold for the time-over-threshold analysis. -/
def tot_relTh : ℚ := 15 / 100

/-- Mean of a list of rationals, as in `numpy.ndarray.mean` (division by
zero length yields `0` in `ℚ`, matching the claim only on non-empty data). -/
def mean (xs : List ℚ) : ℚ := xs.sum / xs.length

/-- Mean squared deviation from the mean: the square of `numpy.ndarray.std`
with the default `ddof = 0`. -/
def stdSq (xs : List ℚ) : ℚ := ((xs.map fun x => (x - mean xs) ^ 2).sum) / xs.length

/-- Standard deviation, `numpy.ndarray.std` with the default `ddof = 0`:
the square root of the mean squared deviation. -/
noncomputable def std (xs : List ℚ) : ℝ := Real.sqrt (stdSq xs)

/-- Embedding of `ratio (A, B)`: the ratio of two values with
uncertainties and its first-order propagated error,
`np.array([A[0]/B[0], np.sqrt((A[1]/B[0])**2 + (A[0]*B[1]/B[0]**2)**2)])`. -/
noncomputable def ratio (A B : ℝ × ℝ) : ℝ × ℝ :=
  (A.1 / B.1, Real.sqrt ((A.2 / B.1) ^ 2 + (A.1 * B.2 / B.1 ^ 2) ^ 2))

/-- Embedding of `meanWithError (data)`:
`np.array([data.mean(), data.std()/np.sqrt(len(data))])`. -/
noncomputable def meanWithError (data : List ℚ) : ℝ × ℝ :=
  ((mean data : ℝ), std data / Real.sqrt (data.length : ℚ))

/-- Embedding of `linFct (p, x) = p[1]*x + p[0]` (coefficient-vector
revision in `src/`); out-of-range indices default to `0` where Python
would raise, which is irrelevant under the length hypotheses used below. -/
def linFct (p : List ℚ) (x : ℚ) : ℚ := p.getD 1 0 * x + p.getD 0 0

/-- Embedding of `quadFct (p, x) = p[2]*x**2 + p[1]*x + p[0]`
(coefficient-vector revision in `src/`). -/
def quadFct (p : List ℚ) (x : ℚ) : ℚ := p.getD 2 0 * x ^ 2 + p.getD 1 0 * x + p.getD 0 0

/-- Embedding of `chargeFct (p, x) = p[3] * (p[2]*x**2 + p[1]*x + p[0])`. -/
def chargeFct (p : List ℚ) (x : ℚ) : ℚ :=
  p.getD 3 0 * (p.getD 2 0 * x ^ 2 + p.getD 1 0 * x + p.getD 0 0)

/-- Modelled from the spec: the explicit-coefficient revision of `linFct`,
`linFct(x, a, b=0) = a*x + b`, which the spec attributes to the other
module revision of this repository, not present under `src/`. -/
def linFctExplicit (x a : ℚ) (b : ℚ := 0) : ℚ := a * x + b

/-- Modelled from the spec: the explicit-coefficient revision of `quadFct`,
`quadFct(x, a, b, c=0) = a*x**2 + b*x + c`, which the spec attributes to the
other module revision of this repository, not present under `src/`. -/
def quadFctExplicit (x a b : ℚ) (c : ℚ := 0) : ℚ := a * x ^ 2 + b * x + c

/-- One waveform event of a calorimeter run file: the per-channel columns
`baseline{ch}`, `data{ch}`, `amplitude{ch}`, `amplitude_position{ch}`,
`integral{ch}` of the `data` tree, one row each. -/
structure Event where
  baseline : ℚ
  adc : List ℚ
  amplitude : ℚ
  amplitudePosition : ℚ
  integral : ℚ
deriving DecidableEq

/-- Baseline-subtracted signal in [mV]:
`sig_mV = abs(dacConv * (bsl[:,np.newaxis] - adc))`, one event's row. -/
def sig (e : Event) : List ℚ := e.adc.map fun a => |dacConv * (e.baseline - a)|

/-- Amplitude in [mV]: `abs(dacConv*amplitude)`, one event's entry. -/
def ampVal (e : Event) : ℚ := |dacConv * e.amplitude|

/-- Position of maximum amplitude in [ns]:
`samplingTime * amplitude_position`, one event's entry. -/
def ampPosVal (e : Event) : ℚ := samplingTime * e.amplitudePosition

/-- Integral in [mV µs]: `abs(dacConv*integral) * samplingTime/1e3`,
one event's entry. -/
def intVal (e : Event) : ℚ := |dacConv * e.integral| * samplingTime / 1000

/-- Time over threshold in [ns]:
`samplingTime * np.sum(sig_mV > tot_absTh, axis=1)`, one event's entry. -/
def totVal (e : Event) : ℚ := samplingTime * ((sig e).countP fun s => tot_absTh < s)

/-- Relative time over threshold in [ns]:
`samplingTime * np.sum(sig_mV > tot_relTh*amplitude[:,np.newaxis], axis=1)`,
one event's entry. -/
def totRelVal (e : Event) : ℚ :=
  samplingTime * ((sig e).countP fun s => tot_relTh * ampVal e < s)

/-- The validity mask `sig_mV.std(axis=1) > 50`, one event's entry. -/
noncomputable def maskP (e : Event) : Prop := 50 < std (sig e)

instance maskPDecidable (e : Event) : Decidable (maskP e) :=
  decidable_of_iff (2500 < stdSq (sig e)) (by
    rw [maskP, std, show (50 : ℝ) = ((50 : ℚ) : ℝ) by norm_num,
      Real.lt_sqrt (by positivity)]
    rw [show ((50 : ℚ) : ℝ) ^ 2 = ((2500 : ℚ) : ℝ) by push_cast; norm_num]
    exact (Rat.cast_lt (K := ℝ)).symm)

/-- The validity mask as a boolean, as it is used for array indexing. -/
def maskB (e : Event) : Bool := decide (maskP e)

/-- Boolean-mask indexing `xs[mask]` of numpy, over lists. -/
def applyMask {α : Type} (m : List Bool) (xs : List α) : List α :=
  (m.zip xs).filterMap fun p => if p.1 then some p.2 else none

/-- Result of `getCALO`: a 1-d array of scalars, or a 2-d array
(one row per event) for the `adc` and `wave` types. -/
inductive CaloResult where
  | scalars : List ℚ → CaloResult
  | waves : List (List ℚ) → CaloResult
deriving DecidableEq

/-- Number of (masked) events in a `getCALO` result. -/
def resultLength : CaloResult → ℕ
  | .scalars xs => xs.length
  | .waves ws => ws.length

/-- Embedding of `getCALO (run, channel, type)`: the file contents for the
given run and channel are abstracted into the event list `f`; the
`raise ValueError(f'type "{type}" not implemented')` of the source becomes
the `Except.error` branch carrying the same message. -/
def getCALO (type : String) (f : List Event) : Except String CaloResult :=
  if type = "amp" then .ok (.scalars (applyMask (f.map maskB) (f.map ampVal)))
  else if type = "ampPos" then .ok (.scalars (applyMask (f.map maskB) (f.map ampPosVal)))
  else if type = "int" then .ok (.scalars (applyMask (f.map maskB) (f.map intVal)))
  else if type = "tot" then .ok (.scalars (applyMask (f.map maskB) (f.map totVal)))
  else if type = "tot_rel" then .ok (.scalars (applyMask (f.map maskB) (f.map totRelVal)))
  else if type = "adc" then .ok (.waves (applyMask (f.map maskB) (f.map Event.adc)))
  else if type = "wave" then .ok (.waves (applyMask (f.map maskB) (f.map sig)))
  else .error ("type \"" ++ type ++ "\" not implemented")

/-- Contents of a preprocessed beamline-diagnostics archive
`processed/run_{run:05d}.npz`: the named entries read by `getDOOCS`. -/
structure DoocsFile where
  chargeToroid : List ℚ
  posX : List ℚ
  posY : List ℚ
deriving DecidableEq

/-- A concrete event used in witnesses and counterexamples: a clearly
non-empty waveform (its signal swings from 0 to 2000 mV, so it passes the
validity mask) whose stored integral field is `2^14` counts. -/
def eInt : Event :=
  { baseline := 16384, adc := [16384, 0], amplitude := 0, amplitudePosition := 0,
    integral := 16384 }

/-- Embedding of `getDOOCS (run, type)`: the archive contents for the given
run are abstracted into `d`; the `raise ValueError` becomes `Except.error`. -/
def getDOOCS (type : String) (d : DoocsFile) : Except String (List ℚ) :=
  if type = "charge" then .ok d.chargeToroid
  else if type = "posX" then .ok d.posX
  else if type = "posY" then .ok d.posY
  else .error ("type \"" ++ type ++ "\" not implemented")

/-- The recognized `type` strings of `getCALO`. -/
def caloTypes : List String := ["amp", "ampPos", "int", "tot", "tot_rel", "adc", "wave"]

/-- The recognized `type` strings of `getDOOCS`. -/
def doocsTypes : List String := ["charge", "posX", "posY"]

theorem applyMask_map {α : Type} (g : Event → α) (f : List Event) :
    applyMask (f.map maskB) (f.map g) = (f.filter maskB).map g := by
  induction f with
  | nil => rfl
  | cons e t ih =>
    simp only [List.map_cons, List.filter_cons, applyMask, List.zip_cons_cons,
      List.filterMap_cons] at ih ⊢
    cases h : maskB e <;> simp [h, ih]

theorem filter_maskB_idem (f : List Event) :
    (f.filter maskB).filter maskB = f.filter maskB := by
  rw [List.filter_filter]
  simp

theorem getCALO_amp (f : List Event) :
    getCALO "amp" f = .ok (.scalars ((f.filter maskB).map ampVal)) := by
  rw [← applyMask_map]; rfl

theorem getCALO_ampPos (f : List Event) :
    getCALO "ampPos" f = .ok (.scalars ((f.filter maskB).map ampPosVal)) := by
  rw [← applyMask_map]; rfl

theorem getCALO_int (f : List Event) :
    getCALO "int" f = .ok (.scalars ((f.filter maskB).map intVal)) := by
  rw [← applyMask_map]; rfl

theorem getCALO_tot (f : List Event) :
    getCALO "tot" f = .ok (.scalars ((f.filter maskB).map totVal)) := by
  rw [← applyMask_map]; rfl

theorem getCALO_totRel (f : List Event) :
    getCALO "tot_rel" f = .ok (.scalars ((f.filter maskB).map totRelVal)) := by
  rw [← applyMask_map]; rfl

theorem getCALO_adc (f : List Event) :
    getCALO "adc" f = .ok (.waves ((f.filter maskB).map Event.adc)) := by
  rw [← applyMask_map]; rfl

theorem getCALO_wave (f : List Event) :
    getCALO "wave" f = .ok (.waves ((f.filter maskB).map sig)) := by
  rw [← applyMask_map]; rfl

theorem getCALO_notImplemented (t : String) (f : List Event) (h : t ∉ caloTypes) :
    getCALO t f = .error ("type \"" ++ t ++ "\" not implemented") := by
  simp only [caloTypes, List.mem_cons, List.not_mem_nil, or_false] at h
  push_neg at h
  obtain ⟨h1, h2, h3, h4, h5, h6, h7⟩ := h
  simp [getCALO, h1, h2, h3, h4, h5, h6, h7]

theorem getDOOCS_notImplemented (t : String) (d : DoocsFile) (h : t ∉ doocsTypes) :
    getDOOCS t d = .error ("type \"" ++ t ++ "\" not implemented") := by
  simp only [doocsTypes, List.mem_cons, List.not_mem_nil, or_false] at h
  push_neg at h
  obtain ⟨h1, h2, h3⟩ := h
  simp [getDOOCS, h1, h2, h3]

theorem sig_eInt : sig eInt = [0, 2000] := by
  show [|dacConv * ((16384 : ℚ) - 16384)|, |dacConv * ((16384 : ℚ) - 0)|] = [0, 2000]
  rw [show dacConv * ((16384 : ℚ) - 16384) = 0 by norm_num [dacConv],
    show dacConv * ((16384 : ℚ) - 0) = 2000 by norm_num [dacConv],
    abs_zero, abs_of_nonneg (by norm_num : (0 : ℚ) ≤ 2000)]

theorem stdSq_sig_eInt : stdSq (sig eInt) = 1000000 := by
  rw [sig_eInt]
  norm_num [stdSq, mean]

theorem maskB_eInt : maskB eInt = true := by
  rw [maskB, decide_eq_true_eq, maskP, std, stdSq_sig_eInt,
    show ((1000000 : ℚ) : ℝ) = 1000 ^ 2 by norm_num,
    Real.sqrt_sq (by norm_num : (0 : ℝ) ≤ 1000)]
  norm_num

theorem intVal_eInt : intVal eInt = 4 := by
  rw [intVal, show dacConv * eInt.integral = 2000 by norm_num [dacConv, eInt],
    abs_of_nonneg (by norm_num : (0 : ℚ) ≤ 2000)]
  norm_num [samplingTime]

/-- C1 counterexample: for the event `eInt` (which passes the validity
mask), `getCALO` with type `int` returns `4` mV·µs, while converting the
stored integral field by `dacConv` (absolute value) and `÷1000` alone, with
no other scale factor, gives `2`: the code applies the additional factor
`samplingTime = 2`. -/
theorem C1_int_no_extra_factor_cex :
    getCALO "int" [eInt] = .ok (.scalars [4]) ∧ ¬ (|dacConv * eInt.integral| / 1000 = 4) := by
  constructor
  · rw [getCALO_int]
    simp [List.filter_cons, maskB_eInt, intVal_eInt]
  · rw [show dacConv * eInt.integral = 2000 by norm_num [dacConv, eInt],
      abs_of_nonneg (by norm_num : (0 : ℚ) ≤ 2000)]
    norm_num

/-- C1 (amended): for every run and channel, the integral quantity returned
by `getCALO` with type `int` equals the stored per-event integral field
converted by `dacConv` (absolute value), multiplied by `samplingTime`, and
divided by 1000. -/
theorem C1_int_scaling (f : List Event) :
    getCALO "int" f =
      .ok (.scalars ((f.filter maskB).map fun e => |dacConv * e.integral| * samplingTime / 1000)) :=
  getCALO_int f

/-- C2: the explicit-coefficient fit functions satisfy
`linFct(x, a, b=0) = a·x + b` and `quadFct(x, a, b, c=0) = a·x² + b·x + c`,
with the default coefficient being `0`, and in particular
`linFct(x=2, a=3, b=1) = 7` and `quadFct(x=2, a=1, b=2, c=3) = 11`. -/
theorem C2_explicit_fit_functions (x a b c : ℚ) :
    linFctExplicit x a b = a * x + b ∧
    quadFctExplicit x a b c = a * x ^ 2 + b * x + c ∧
    linFctExplicit x a = a * x ∧
    quadFctExplicit x a b = a * x ^ 2 + b * x ∧
    linFctExplicit 2 3 1 = 7 ∧
    quadFctExplicit 2 1 2 3 = 11 :=
  ⟨rfl, rfl, by simp [linFctExplicit], by simp [quadFctExplicit],
    by norm_num [linFctExplicit], by norm_num [quadFctExplicit]⟩

/-- C3: for every file contents and recognized type, `getCALO` succeeds,
the returned array has exactly as many entries as there are events passing
the validity mask `std(sig) > 50`, and discarding the invalid events
beforehand does not change the result (so invalid events contribute
nothing to the output, identically for every recognized type). -/
theorem C3_mask_uniform (f : List Event) (t : String) (h : t ∈ caloTypes) :
    ∃ r, getCALO t f = .ok r ∧ resultLength r = f.countP maskB ∧
      getCALO t f = getCALO t (f.filter maskB) := by
  have hlen : ∀ {α : Type} (g : Event → α), ((f.filter maskB).map g).length = f.countP maskB := by
    intro α g
    rw [List.length_map, List.countP_eq_length_filter]
  simp only [caloTypes, List.mem_cons, List.not_mem_nil, or_false] at h
  rcases h with rfl | rfl | rfl | rfl | rfl | rfl | rfl
  · exact ⟨_, getCALO_amp f, by simpa [resultLength] using hlen ampVal,
      by rw [getCALO_amp, getCALO_amp, filter_maskB_idem]⟩
  · exact ⟨_, getCALO_ampPos f, by simpa [resultLength] using hlen ampPosVal,
      by rw [getCALO_ampPos, getCALO_ampPos, filter_maskB_idem]⟩
  · exact ⟨_, getCALO_int f, by simpa [resultLength] using hlen intVal,
      by rw [getCALO_int, getCALO_int, filter_maskB_idem]⟩
  · exact ⟨_, getCALO_tot f, by simpa [resultLength] using hlen totVal,
      by rw [getCALO_tot, getCALO_tot, filter_maskB_idem]⟩
  · exact ⟨_, getCALO_totRel f, by simpa [resultLength] using hlen totRelVal,
      by rw [getCALO_totRel, getCALO_totRel, filter_maskB_idem]⟩
  · exact ⟨_, getCALO_adc f, by simpa [resultLength] using hlen Event.adc,
      by rw [getCALO_adc, getCALO_adc, filter_maskB_idem]⟩
  · exact ⟨_, getCALO_wave f, by simpa [resultLength] using hlen sig,
      by rw [getCALO_wave, getCALO_wave, filter_maskB_idem]⟩

/-- C3 witness: the mask property instantiated at the type `amp` and the
concrete one-event file `[eInt]`. -/
theorem C3_mask_uniform_witness :
    "amp" ∈ caloTypes ∧
    ∃ r, getCALO "amp" [eInt] = .ok r ∧ resultLength r = List.countP maskB [eInt] ∧
      getCALO "amp" [eInt] = getCALO "amp" (List.filter maskB [eInt]) :=
  ⟨by decide, C3_mask_uniform [eInt] "amp" (by decide)⟩

/-- C4: for inputs with `B.value ≠ 0`, `ratio A B` is the pair of the value
ratio and the first-order propagated error; the error is `0` when both
input errors are `0`, and `ratio (6,0) (3,0) = (2,0)`. -/
theorem C4_ratio_propagation (A B : ℝ × ℝ) (h : B.1 ≠ 0) :
    ratio A B = (A.1 / B.1, Real.sqrt ((A.2 / B.1) ^ 2 + (A.1 * B.2 / B.1 ^ 2) ^ 2)) ∧
    (A.2 = 0 → B.2 = 0 → ratio A B = (A.1 / B.1, 0)) ∧
    ratio (6, 0) (3, 0) = (2, 0) := by
  refine ⟨rfl, ?_, ?_⟩
  · intro ha hb
    rw [ratio, ha, hb]
    simp
  · rw [ratio]
    norm_num

/-- C4 witness: the propagation property applied at `A = (6,0)`, `B = (3,0)`. -/
theorem C4_ratio_propagation_witness :
    ((3 : ℝ), (0 : ℝ)).1 ≠ 0 ∧ ratio (6, 0) (3, 0) = (2, 0) :=
  ⟨by norm_num, (C4_ratio_propagation (6, 0) (3, 0) (by norm_num)).2.2⟩

/-- C5: for non-empty data, `meanWithError` returns the mean paired with
the standard deviation over the square root of the length; in particular
`meanWithError [2,4,6] = (4, std [2,4,6] / √3) = (4, 2·√2/3)`. -/
theorem C5_meanWithError_sem (data : List ℚ) (h : data ≠ []) :
    meanWithError data = ((mean data : ℝ), std data / Real.sqrt ((data.length : ℚ) : ℝ)) ∧
    meanWithError [2, 4, 6] = (4, 2 * Real.sqrt 2 / 3) := by
  refine ⟨rfl, ?_⟩
  have hm : mean [2, 4, 6] = 4 := by norm_num [mean]
  have hs : stdSq [2, 4, 6] = 8 / 3 := by norm_num [stdSq, hm]
  have hsqrt : Real.sqrt (8 / 3) / Real.sqrt 3 = 2 * Real.sqrt 2 / 3 := by
    rw [← Real.sqrt_div (by norm_num : (0 : ℝ) ≤ 8 / 3) 3,
      show (8 : ℝ) / 3 / 3 = 8 / 9 by norm_num,
      show (8 : ℝ) / 9 = (2 * Real.sqrt 2 / 3) ^ 2 by
        rw [div_pow, mul_pow, Real.sq_sqrt (by norm_num : (0 : ℝ) ≤ 2)]
        norm_num,
      Real.sqrt_sq (by positivity)]
  rw [meanWithError, std, hm, hs]
  rw [Prod.mk.injEq]
  constructor
  · norm_num
  · rw [show (((8 : ℚ) / 3 : ℚ) : ℝ) = (8 : ℝ) / 3 by push_cast; ring,
      show ((((([2, 4, 6] : List ℚ).length : ℕ) : ℚ)) : ℝ) = (3 : ℝ) by push_cast; norm_num]
    exact hsqrt

/-- C5 witness: the statement applied at the non-empty data `[2,4,6]`. -/
theorem C5_meanWithError_sem_witness :
    ([2, 4, 6] : List ℚ) ≠ [] ∧ meanWithError [2, 4, 6] = (4, 2 * Real.sqrt 2 / 3) :=
  ⟨by simp, (C5_meanWithError_sem [2, 4, 6] (by simp)).2⟩

/-- C6: for a coefficient vector of length at least 4, `chargeFct p x`
is `p[3]·(p[2]·x² + p[1]·x + p[0])`; in particular
`chargeFct [0,0,1,5] 2 = 20`. -/
theorem C6_chargeFct_eval (p : List ℚ) (x : ℚ) (h : 4 ≤ p.length) :
    chargeFct p x = p.getD 3 0 * (p.getD 2 0 * x ^ 2 + p.getD 1 0 * x + p.getD 0 0) ∧
    chargeFct [0, 0, 1, 5] 2 = 20 :=
  ⟨rfl, by norm_num [chargeFct]⟩

/-- C6 witness: the statement applied at `p = [0,0,1,5]`, `x = 2`. -/
theorem C6_chargeFct_eval_witness :
    4 ≤ ([0, 0, 1, 5] : List ℚ).length ∧ chargeFct [0, 0, 1, 5] 2 = 20 :=
  ⟨by decide, (C6_chargeFct_eval [0, 0, 1, 5] 2 (by decide)).2⟩

/-- C7: when every waveform has `n` samples, every value returned by
`getCALO` with type `tot` or `tot_rel` is a non-negative multiple of
`samplingTime` and is at most `samplingTime · n`, because it is
`samplingTime` times the count of samples above the threshold. -/
theorem C7_tot_range (f : List Event) (n : ℕ) (hn : ∀ e ∈ f, e.adc.length = n)
    (t : String) (ht : t = "tot" ∨ t = "tot_rel") :
    ∃ xs, getCALO t f = .ok (.scalars xs) ∧
      ∀ v ∈ xs, 0 ≤ v ∧ ∃ k : ℕ, v = samplingTime * k ∧ v ≤ samplingTime * n := by
  have hst : (0 : ℚ) ≤ samplingTime := by norm_num [samplingTime]
  have main : ∀ g : Event → ℚ, (∀ e ∈ f, ∃ k : ℕ, g e = samplingTime * k ∧ k ≤ n) →
      ∀ v ∈ (f.filter maskB).map g,
        0 ≤ v ∧ ∃ k : ℕ, v = samplingTime * k ∧ v ≤ samplingTime * n := by
    intro g hg v hv
    obtain ⟨e, he, rfl⟩ := List.mem_map.1 hv
    obtain ⟨k, hk, hkn⟩ := hg e (List.mem_filter.1 he).1
    refine ⟨?_, k, hk, ?_⟩
    · rw [hk]
      exact mul_nonneg hst (Nat.cast_nonneg k)
    · rw [hk]
      exact mul_le_mul_of_nonneg_left (by exact_mod_cast hkn) hst
  rcases ht with rfl | rfl
  · refine ⟨_, getCALO_tot f, main totVal ?_⟩
    intro e he
    refine ⟨(sig e).countP fun s => tot_absTh < s, rfl, ?_⟩
    calc (sig e).countP (fun s => tot_absTh < s) ≤ (sig e).length := List.countP_le_length _
    _ = e.adc.length := by simp [sig]
    _ = n := hn e he
  · refine ⟨_, getCALO_totRel f, main totRelVal ?_⟩
    intro e he
    refine ⟨(sig e).countP fun s => tot_relTh * ampVal e < s, rfl, ?_⟩
    calc (sig e).countP (fun s => tot_relTh * ampVal e < s) ≤ (sig e).length :=
      List.countP_le_length _
    _ = e.adc.length := by simp [sig]
    _ = n := hn e he

/-- C7 witness: the range property applied to the one-event file `[eInt]`
with two samples per waveform, at type `tot`. -/
theorem C7_tot_range_witness :
    (∀ e ∈ [eInt], e.adc.length = 2) ∧
    ∃ xs, getCALO "tot" [eInt] = .ok (.scalars xs) ∧
      ∀ v ∈ xs, 0 ≤ v ∧ ∃ k : ℕ, v = samplingTime * k ∧ v ≤ samplingTime * 2 :=
  ⟨by simp [eInt], C7_tot_range [eInt] 2 (by simp [eInt]) "tot" (Or.inl rfl)⟩

/-- C8: `getDOOCS` called with any type outside {charge, posX, posY} and
`getCALO` called with any type outside {amp, ampPos, int, tot, tot_rel,
adc, wave} — each judged against its own recognized set, so including each
function called with the other's types — fail with an error message
containing the offending `type` value, and both succeed (raising no error)
on every type of their own recognized set. -/
theorem C8_unknown_type_error (d : DoocsFile) (f : List Event) (t u : String)
    (hd : t ∉ doocsTypes) (hc : u ∉ caloTypes) :
    (∃ a b, getDOOCS t d = .error (a ++ t ++ b)) ∧
    (∃ a b, getCALO u f = .error (a ++ u ++ b)) ∧
    (∀ v ∈ doocsTypes, ∃ r, getDOOCS v d = .ok r) ∧
    (∀ v ∈ caloTypes, ∃ r, getCALO v f = .ok r) := by
  refine ⟨⟨"type \"", "\" not implemented", getDOOCS_notImplemented t d hd⟩,
    ⟨"type \"", "\" not implemented", getCALO_notImplemented u f hc⟩, ?_, ?_⟩
  · intro v hv
    simp only [doocsTypes, List.mem_cons, List.not_mem_nil, or_false] at hv
    rcases hv with rfl | rfl | rfl
    · exact ⟨_, rfl⟩
    · exact ⟨_, rfl⟩
    · exact ⟨_, rfl⟩
  · intro v hv
    simp only [caloTypes, List.mem_cons, List.not_mem_nil, or_false] at hv
    rcases hv with rfl | rfl | rfl | rfl | rfl | rfl | rfl
    · exact ⟨_, getCALO_amp f⟩
    · exact ⟨_, getCALO_ampPos f⟩
    · exact ⟨_, getCALO_int f⟩
    · exact ⟨_, getCALO_tot f⟩
    · exact ⟨_, getCALO_totRel f⟩
    · exact ⟨_, getCALO_adc f⟩
    · exact ⟨_, getCALO_wave f⟩

/-- C8 witness: the error-handling property applied at the cross cases:
`getDOOCS` with the `getCALO`-only type `amp` and `getCALO` with the
`getDOOCS`-only type `charge`, on an empty archive and an empty event
list. -/
theorem C8_unknown_type_error_witness :
    "amp" ∉ doocsTypes ∧ "charge" ∉ caloTypes ∧
    (∃ a b, getDOOCS "amp" ⟨[], [], []⟩ = .error (a ++ "amp" ++ b)) ∧
    (∃ a b, getCALO "charge" [] = .error (a ++ "charge" ++ b)) := by
  have h := C8_unknown_type_error ⟨[], [], []⟩ [] "amp" "charge" (by decide) (by decide)
  exact ⟨by decide, by decide, h.1, h.2.1⟩

/-- C10: trailing coefficients beyond those read never affect `linFct` or
`quadFct`, and `chargeFct p x = p[3] · quadFct p x`. -/
theorem C10_trailing_coefficients (p extra : List ℚ) (x : ℚ) :
    (2 ≤ p.length → linFct (p ++ extra) x = linFct p x) ∧
    (3 ≤ p.length → quadFct (p ++ extra) x = quadFct p x) ∧
    (4 ≤ p.length → chargeFct p x = p.getD 3 0 * quadFct p x) := by
  refine ⟨?_, ?_, fun _ => rfl⟩
  · intro h
    simp only [linFct]
    rw [List.getD_append p extra 0 1 (by omega), List.getD_append p extra 0 0 (by omega)]
  · intro h
    simp only [quadFct]
    rw [List.getD_append p extra 0 2 (by omega), List.getD_append p extra 0 1 (by omega),
      List.getD_append p extra 0 0 (by omega)]

/-- C10 witness: the property applied at `p = [1,2,3,4]`, `extra = [9]`,
`x = 2`, discharging the three length hypotheses. -/
theorem C10_trailing_coefficients_witness :
    linFct ([1, 2, 3, 4] ++ [9]) 2 = linFct [1, 2, 3, 4] 2 ∧
    quadFct ([1, 2, 3, 4] ++ [9]) 2 = quadFct [1, 2, 3, 4] 2 ∧
    chargeFct [1, 2, 3, 4] 2 = List.getD [1, 2, 3, 4] 3 0 * quadFct [1, 2, 3, 4] 2 := by
  have h := C10_trailing_coefficients [1, 2, 3, 4] [9] 2
  exact ⟨h.1 (by decide), h.2.1 (by decide), h.2.2 (by decide)⟩
